import Mathlib

/-!
Verification of the OptimusV2 code-execution service.

This file gives a shallow embedding of the parts of the repository that the
claims speak about:

* the deterministic evaluator (bins/optimus-worker/src/evaluator.rs):
  normalize_output, evaluate_test, aggregate_results, evaluate;
* the engine's per-test cancellation loop and its infrastructure-failure
  fallback (bins/optimus-worker/src/engine.rs, execute_job_in_single_container
  and create_compilation_error_outputs);
* the worker loop's retry / dead-letter bookkeeping (bins/optimus-worker/src/main.rs);
* the API admission handler (bins/optimus-api/src/handlers.rs, submit_job):
  validation and the idempotency protocol.

Machine integers: the scores are Rust u32 values; additions are modelled with
an explicit reduction modulo 2^32 (release-build wraparound semantics).
Strings are modelled as Lean strings; Rust's str::trim is re-implemented below
over the Unicode White_Space set so it is not conflated with Lean's String.trim.
I/O (Redis, Docker) is abstracted into explicit parameters: the cancellation
flag becomes a Boolean function of the loop iteration, the container daemon's
behaviour becomes an event datatype, and per-test container execution becomes
a function from the test case to a raw output.
-/

namespace Optimus

/-! ## Rust string primitives -/

/-- Rust's char::is_whitespace: membership of the Unicode White_Space set
(U+0009..U+000D, U+0020, U+0085, U+00A0, U+1680, U+2000..U+200A, U+2028,
U+2029, U+202F, U+205F, U+3000). -/
def rustIsWhitespace (c : Char) : Bool :=
  c.toNat == 0x9 || c.toNat == 0xA || c.toNat == 0xB || c.toNat == 0xC || c.toNat == 0xD ||
  c.toNat == 0x20 || c.toNat == 0x85 || c.toNat == 0xA0 || c.toNat == 0x1680 ||
  (decide (0x2000 ≤ c.toNat) && decide (c.toNat ≤ 0x200A)) ||
  c.toNat == 0x2028 || c.toNat == 0x2029 || c.toNat == 0x202F || c.toNat == 0x205F ||
  c.toNat == 0x3000

/-- Rust's str::trim on the character list: drop leading whitespace, then drop
trailing whitespace (implemented by reversing, dropping, reversing back). -/
def rustTrimList (l : List Char) : List Char :=
  (((l.dropWhile rustIsWhitespace).reverse).dropWhile rustIsWhitespace).reverse

/-- Rust's str::trim lifted to strings. -/
def rustTrim (s : String) : String :=
  ⟨rustTrimList s.data⟩

/-! ## Data model

The worker and API share these value types.  The copy of
libs/optimus-common/src/types.rs in the tree is an earlier iteration that
lacks several of the fields the worker uses, so the shapes below are modelled
from the spec's data model (section 3) and from how the worker and API
construct and consume them. -/

/-- Modelled from the spec: the language enum (the engine matches exactly
Python, Java and Rust). -/
inductive Language where
  | Python
  | Java
  | Rust
deriving DecidableEq

/-- Modelled from the spec: per-test verdicts. -/
inductive TestStatus where
  | Passed
  | Failed
  | RuntimeError
  | TimeLimitExceeded
deriving DecidableEq

/-- Modelled from the spec: overall job status stored with the result. -/
inductive JobStatus where
  | Completed
  | Failed
  | TimedOut
  | Cancelled
deriving DecidableEq

/-- Modelled from the spec: a test case as carried inside a JobRequest.
Weights are u32 values. -/
structure TestCase where
  id : Nat
  input : String
  expected_output : String
  weight : Nat
deriving DecidableEq

/-- Modelled from the spec: retry bookkeeping attached to a job. -/
structure JobMetadata where
  attempts : Nat
  max_attempts : Nat
  last_failure_reason : Option String
deriving DecidableEq

/-- Default metadata: attempts 0, max_attempts 3, no failure reason. -/
def JobMetadata.default : JobMetadata :=
  { attempts := 0, max_attempts := 3, last_failure_reason := none }

/-- Modelled from the spec: a job as dequeued by the worker.  The uuid is
modelled as an abstract numeric identifier. -/
structure JobRequest where
  id : Nat
  language : Language
  source_code : String
  test_cases : List TestCase
  timeout_ms : Nat
  metadata : JobMetadata
deriving DecidableEq

/-- Raw execution output for a single test case (evaluator.rs). -/
structure TestExecutionOutput where
  test_id : Nat
  stdout : String
  stderr : String
  execution_time_ms : Nat
  timed_out : Bool
  runtime_error : Bool
  compilation_failed : Bool
deriving DecidableEq

/-- A scored per-test result (spec section 3; constructed in evaluate_test). -/
structure TestResult where
  test_id : Nat
  status : TestStatus
  stdout : String
  stderr : String
  execution_time_ms : Nat
deriving DecidableEq

/-- The final result object the worker writes (spec section 3). -/
structure ExecutionResult where
  job_id : Nat
  overall_status : JobStatus
  score : Nat
  max_score : Nat
  results : List TestResult
deriving DecidableEq

/-- 2^32: the modulus of Rust's u32 arithmetic. -/
def U32 : Nat := 4294967296

/-! ## Evaluator (bins/optimus-worker/src/evaluator.rs) -/

/-- evaluator.rs normalize_output: output.trim(). -/
def normalize_output (output : String) : String :=
  rustTrim output

/-- evaluator.rs evaluate_test: derive the status by first-match precedence
(compilation_failed, runtime_error, timed_out, non-whitespace stderr, output
comparison) and package the raw streams into a TestResult. -/
def evaluate_test (output : TestExecutionOutput) (test_case : TestCase) : TestResult :=
  let status :=
    if output.compilation_failed then TestStatus.RuntimeError
    else if output.runtime_error then TestStatus.RuntimeError
    else if output.timed_out then TestStatus.TimeLimitExceeded
    else if rustTrim output.stderr ≠ "" then TestStatus.Failed
    else if normalize_output output.stdout = normalize_output test_case.expected_output then
      TestStatus.Passed
    else TestStatus.Failed
  { test_id := output.test_id
    status := status
    stdout := output.stdout
    stderr := output.stderr
    execution_time_ms := output.execution_time_ms }

/-- aggregate_results' per-output lookup:
job.test_cases.iter().find(|tc| tc.id == output.test_id). -/
def findTestCase (job : JobRequest) (tid : Nat) : Option TestCase :=
  job.test_cases.find? (fun tc => tc.id == tid)

/-- The evaluation loop of aggregate_results.  It walks the outputs in order,
pushing one TestResult per output and accumulating the u32 score of passed
tests; an output whose test_id matches no test case makes the Rust code panic
(.expect), modelled as none. -/
def aggregateLoop (job : JobRequest) :
    List TestExecutionOutput → List TestResult → Nat → Option (List TestResult × Nat)
  | [], acc, score => some (acc, score)
  | o :: rest, acc, score =>
    match findTestCase job o.test_id with
    | none => none
    | some tc =>
      let tr := evaluate_test o tc
      let score' := if tr.status = TestStatus.Passed then (score + tc.weight) % U32 else score
      aggregateLoop job rest (acc ++ [tr]) score'

/-- u32 summation (job.test_cases.iter().map(|tc| tc.weight).sum::<u32>()),
with release-build wraparound. -/
def u32Sum (l : List Nat) : Nat :=
  l.foldl (fun a w => (a + w) % U32) 0

/-- evaluator.rs aggregate_results: max_score is the u32 sum of all weights,
the loop produces the test results and the score, and the overall status is
Completed exactly when the accumulated score is positive. -/
def aggregate_results (outputs : List TestExecutionOutput) (job : JobRequest) :
    Option ExecutionResult :=
  (aggregateLoop job outputs [] 0).map (fun pr =>
    { job_id := job.id
      overall_status := if pr.2 > 0 then JobStatus.Completed else JobStatus.Failed
      score := pr.2
      max_score := u32Sum (job.test_cases.map (fun tc => tc.weight))
      results := pr.1 })

/-- evaluator.rs evaluate: the public entry point, delegating to
aggregate_results. -/
def evaluate (job : JobRequest) (outputs : List TestExecutionOutput) :
    Option ExecutionResult :=
  aggregate_results outputs job

/-- The score contribution of one output, as an Option: the weight of the
matching test case when the evaluated status is Passed, nothing otherwise. -/
def passedWeight? (job : JobRequest) (o : TestExecutionOutput) : Option Nat :=
  match findTestCase job o.test_id with
  | none => none
  | some tc => if (evaluate_test o tc).status = TestStatus.Passed then some tc.weight else none

/-- The score contribution of one output to the job's score: the weight of the
matching test case when the test evaluates to Passed, and 0 otherwise. -/
def scoreContribution (job : JobRequest) (o : TestExecutionOutput) : Nat :=
  (passedWeight? job o).getD 0

/-! ## Execution engine (bins/optimus-worker/src/engine.rs)

Docker I/O is abstracted: the per-test container exec becomes a function
from the test case to a raw output (covering both the Ok branch and the
fabricated runtime-error output of the Err branch), and the Redis
cancellation flag becomes a Boolean function of the number of tests already
executed (the code re-reads the flag before each test; a Redis error makes
the code continue, i.e. behaves as false). -/

/-- The code sets output.test_id = test_case.id after each exec. -/
def setTestId (o : TestExecutionOutput) (i : Nat) : TestExecutionOutput :=
  { o with test_id := i }

/-- The per-test loop of execute_job_in_single_container (engine.rs): before
each test case the cancellation flag is polled; when it is observed the loop
breaks, returning the outputs produced so far.  The iteration counter idx is
the number of tests already executed. -/
def runTestsWithCancellation (cancelled : Nat → Bool)
    (execOne : TestCase → TestExecutionOutput) :
    List TestCase → Nat → List TestExecutionOutput
  | [], _ => []
  | tc :: rest, idx =>
    if cancelled idx then []
    else setTestId (execOne tc) tc.id ::
      runTestsWithCancellation cancelled execOne rest (idx + 1)

/-- engine.rs create_compilation_error_outputs: fabricate one output per test
case with compilation_failed = true and the error text in stderr. -/
def create_compilation_error_outputs (test_cases : List TestCase) (error_message : String) :
    List TestExecutionOutput :=
  test_cases.map (fun tc =>
    { test_id := tc.id
      stdout := ""
      stderr := error_message
      execution_time_ms := 0
      timed_out := false
      runtime_error := false
      compilation_failed := true })

/-- The observable behaviour of the container daemon and compile phase during
execute_job_in_single_container, as an event: either one of the setup steps
fails (image pull, container create, container start, source write, compile
exec), the user code fails to compile, or compilation succeeds and the
per-test loop runs. -/
inductive EngineEvent where
  | pullFailure (msg : String)
  | createFailure (msg : String)
  | startFailure (msg : String)
  | sourceWriteFailure (msg : String)
  | compileProcessFailure (msg : String)
  | compileFailure (stderr : String)
  | compiled
deriving DecidableEq

/-- engine.rs execute_job_in_single_container: every setup failure is turned
into compilation-error outputs (with the code's respective message), a compile
failure of the user code likewise, and on success the cancellable per-test
loop produces the outputs. -/
def execute_job_in_single_container (job : JobRequest) (ev : EngineEvent)
    (cancelled : Nat → Bool) (execOne : TestCase → TestExecutionOutput) :
    List TestExecutionOutput :=
  match ev with
  | EngineEvent.pullFailure msg =>
    create_compilation_error_outputs job.test_cases ("Failed to pull image: " ++ msg)
  | EngineEvent.createFailure msg =>
    create_compilation_error_outputs job.test_cases ("Container creation failed: " ++ msg)
  | EngineEvent.startFailure msg =>
    create_compilation_error_outputs job.test_cases ("Container start failed: " ++ msg)
  | EngineEvent.sourceWriteFailure msg =>
    create_compilation_error_outputs job.test_cases ("Source write failed: " ++ msg)
  | EngineEvent.compileProcessFailure msg =>
    create_compilation_error_outputs job.test_cases ("Compilation process error: " ++ msg)
  | EngineEvent.compileFailure stderr =>
    create_compilation_error_outputs job.test_cases stderr
  | EngineEvent.compiled =>
    runTestsWithCancellation cancelled execOne job.test_cases 0

/-! ## Worker loop (bins/optimus-worker/src/main.rs)

The loop body for one dequeued job.  executor::execute_docker only returns
Err when the Docker engine itself cannot be constructed (daemon connection
failure); every in-engine failure is already converted to outputs above and
flows into the evaluator.  A worker event is therefore either an engine
construction failure or an engine run. -/

/-- What happened when the worker tried to execute the dequeued job. -/
inductive WorkerEvent where
  | engineInitFailure (msg : String)
  | engineRan (ev : EngineEvent)
deriving DecidableEq

/-- The side effects of one worker-loop iteration on the shared store:
an optional result write, an optional retry-queue push and an optional
dead-letter push. -/
structure WorkerEffects where
  resultWrite : Option ExecutionResult
  retryPush : Option JobRequest
  dlqPush : Option JobRequest
deriving DecidableEq

/-- main.rs failure bookkeeping: increment attempts and record the reason. -/
def bumpAttempts (job : JobRequest) (msg : String) : JobRequest :=
  { job with metadata :=
      { job.metadata with
        attempts := job.metadata.attempts + 1
        last_failure_reason := some ("Execution error: " ++ msg) } }

/-- The synthetic terminal result main.rs stores when a job is dead-lettered:
Failed, score 0, max_score the u32 sum of the weights, no per-test results. -/
def dlqFailedResult (job : JobRequest) : ExecutionResult :=
  { job_id := job.id
    overall_status := JobStatus.Failed
    score := 0
    max_score := u32Sum (job.test_cases.map (fun tc => tc.weight))
    results := [] }

/-- main.rs worker_loop, body for one dequeued job: an execution error (only
the engine construction can produce one) increments attempts and requeues to
retry or, past max_attempts, to the DLQ together with a final Failed result;
a completed execution is evaluated and its result written.  The none branch of
evaluate is the panic path; it is unreachable for engine-produced outputs
because they always carry ids of the job's own test cases. -/
def worker_process_job (job : JobRequest) (wev : WorkerEvent)
    (cancelled : Nat → Bool) (execOne : TestCase → TestExecutionOutput) :
    WorkerEffects :=
  match wev with
  | WorkerEvent.engineInitFailure msg =>
    let job' := bumpAttempts job msg
    if job'.metadata.attempts < job'.metadata.max_attempts then
      { resultWrite := none, retryPush := some job', dlqPush := none }
    else
      { resultWrite := some (dlqFailedResult job), retryPush := none, dlqPush := some job' }
  | WorkerEvent.engineRan ev =>
    match evaluate job (execute_job_in_single_container job ev cancelled execOne) with
    | some r => { resultWrite := some r, retryPush := none, dlqPush := none }
    | none => { resultWrite := none, retryPush := none, dlqPush := none }

/-! ## API admission (bins/optimus-api/src/handlers.rs, submit_job)

The handler is modelled as a pure function of the payload, the language
registry (is_enabled), the result of the idempotency lookup and the freshly
generated job id.  The lookup parameter is some record exactly when an
Idempotency-Key header was supplied and the store holds a well-formed record
for it (records are only ever written by this same handler, with a job_id and
the serialized payload); no key, an absent record and a store read error all
continue into validation.  Payload serialization (serde_json::to_string) is
an explicit function parameter. -/

/-- A submitted test case, before ids are assigned (weight defaults applied
by serde before the handler runs). -/
structure TestCaseInput where
  input : String
  expected_output : String
  weight : Nat
deriving DecidableEq

/-- The submission payload, after JSON deserialization. -/
structure SubmitPayload where
  language : Language
  source_code : String
  test_cases : List TestCaseInput
  timeout_ms : Nat
deriving DecidableEq

/-- A stored idempotency record: the previously assigned job id and the
serialized payload it was created for. -/
structure IdemRecord where
  job_id : Nat
  payload : String
deriving DecidableEq

/-- The handler's response, reduced to its semantics: a rejection with an
error code, an already-accepted replay with the stored job id, or a fresh
acceptance. -/
inductive SubmitOutcome where
  | rejected (code : String)
  | acceptedExisting (job_id : Nat)
  | acceptedNew (job_id : Nat)
deriving DecidableEq

/-- The handler's observable effect: the HTTP outcome plus what (if anything)
was pushed onto the language queue. -/
structure SubmitEffects where
  response : SubmitOutcome
  enqueued : Option JobRequest
deriving DecidableEq

/-- The per-test-case size loop of submit_job: for each test case, in order,
first the input size then the expected-output size is checked against
64 000 bytes. -/
def firstSizeViolation : List TestCaseInput → Option String
  | [] => none
  | tc :: rest =>
    if tc.input.utf8ByteSize > 64000 then some "TEST_CASE_INPUT_TOO_LARGE"
    else if tc.expected_output.utf8ByteSize > 64000 then some "TEST_CASE_OUTPUT_TOO_LARGE"
    else firstSizeViolation rest

/-- The validation chain of submit_job that runs after the idempotency check,
in source order: empty test list, test count, source byte size, source
emptiness after trim, per-test sizes, timeout bounds.  Returns the error code
of the first violated rule. -/
def validateSubmission (p : SubmitPayload) : Option String :=
  if p.test_cases.isEmpty then some "NO_TEST_CASES"
  else if p.test_cases.length > 100 then some "TOO_MANY_TEST_CASES"
  else if p.source_code.utf8ByteSize > 256000 then some "SOURCE_CODE_TOO_LARGE"
  else if rustTrim p.source_code = "" then some "EMPTY_SOURCE_CODE"
  else
    match firstSizeViolation p.test_cases with
    | some code => some code
    | none =>
      if p.timeout_ms < 1 ∨ p.timeout_ms > 60000 then some "INVALID_TIMEOUT"
      else none

/-- submit_job's conversion of the accepted payload into a JobRequest:
test cases are numbered 1..N in submission order and default metadata is
attached. -/
def mkJobRequest (job_id : Nat) (p : SubmitPayload) : JobRequest :=
  { id := job_id
    language := p.language
    source_code := p.source_code
    test_cases := p.test_cases.enum.map (fun itc =>
      { id := itc.1 + 1
        input := itc.2.input
        expected_output := itc.2.expected_output
        weight := itc.2.weight })
    timeout_ms := p.timeout_ms
    metadata := JobMetadata.default }

/-- handlers.rs submit_job: language registry check first, then the
idempotency protocol (replay or conflict, both without enqueue), then the
validation chain (rejection without enqueue), then the enqueue of the fresh
job. -/
def submit_job (enabled : Language → Bool) (serialize : SubmitPayload → String)
    (lookup : Option IdemRecord) (fresh_id : Nat) (p : SubmitPayload) : SubmitEffects :=
  if enabled p.language then
    match lookup with
    | some stored =>
      if stored.payload = serialize p then
        { response := SubmitOutcome.acceptedExisting stored.job_id, enqueued := none }
      else
        { response := SubmitOutcome.rejected "IDEMPOTENCY_CONFLICT", enqueued := none }
    | none =>
      match validateSubmission p with
      | some code => { response := SubmitOutcome.rejected code, enqueued := none }
      | none =>
        { response := SubmitOutcome.acceptedNew fresh_id
          enqueued := some (mkJobRequest fresh_id p) }
  else
    { response := SubmitOutcome.rejected "LANGUAGE_NOT_SUPPORTED", enqueued := none }

/-! ## Shared lemmas about the evaluator -/

/-- Wrapped folding coincides with the plain sum reduced modulo 2^32. -/
lemma foldl_wrapAdd (l : List Nat) : ∀ a, a < U32 →
    l.foldl (fun a w => (a + w) % U32) a = (a + l.sum) % U32 := by
  induction l with
  | nil =>
    intro a ha
    simpa using (Nat.mod_eq_of_lt ha).symm
  | cons w t ih =>
    intro a ha
    have hU : 0 < U32 := by decide
    have h1 : (a + w) % U32 < U32 := Nat.mod_lt _ hU
    calc ((w :: t).foldl (fun a w => (a + w) % U32) a)
        = t.foldl (fun a w => (a + w) % U32) ((a + w) % U32) := rfl
      _ = ((a + w) % U32 + t.sum) % U32 := ih _ h1
      _ = (a + w + t.sum) % U32 := Nat.mod_add_mod _ _ _
      _ = (a + (w :: t).sum) % U32 := by rw [List.sum_cons, Nat.add_assoc]

/-- u32Sum is the plain sum reduced modulo 2^32. -/
lemma u32Sum_eq (l : List Nat) : u32Sum l = l.sum % U32 := by
  simpa using foldl_wrapAdd l 0 (by decide)

/-- The evaluation loop succeeds exactly when every output's test_id has a
matching test case. -/
lemma aggregateLoop_isSome_iff (job : JobRequest) :
    ∀ (outputs : List TestExecutionOutput) (acc : List TestResult) (s : Nat),
    (aggregateLoop job outputs acc s).isSome ↔
      ∀ o ∈ outputs, (findTestCase job o.test_id).isSome := by
  intro outputs
  induction outputs with
  | nil => intro acc s; simp [aggregateLoop]
  | cons o rest ih =>
    intro acc s
    cases hf : findTestCase job o.test_id with
    | none => simp [aggregateLoop, hf]
    | some tc => simp [aggregateLoop, hf, ih]

/-- What the evaluation loop computes when every output matches a test case:
the accumulated results followed by one evaluated TestResult per output, and
the wrapped sum of the weights of the passed tests. -/
lemma aggregateLoop_spec (job : JobRequest) :
    ∀ (outputs : List TestExecutionOutput) (acc : List TestResult) (s : Nat), s < U32 →
    (∀ o ∈ outputs, (findTestCase job o.test_id).isSome) →
    aggregateLoop job outputs acc s =
      some (acc ++ outputs.filterMap (fun o => (findTestCase job o.test_id).map (evaluate_test o)),
            (s + (outputs.filterMap (passedWeight? job)).sum) % U32) := by
  intro outputs
  induction outputs with
  | nil =>
    intro acc s hs _
    simp [aggregateLoop, Nat.mod_eq_of_lt hs]
  | cons o rest ih =>
    intro acc s hs hall
    have ho : (findTestCase job o.test_id).isSome := hall o (by simp)
    obtain ⟨tc, hf⟩ := Option.isSome_iff_exists.mp ho
    have hrest : ∀ o' ∈ rest, (findTestCase job o'.test_id).isSome := by
      intro o' ho'; exact hall o' (by simp [ho'])
    by_cases hp : (evaluate_test o tc).status = TestStatus.Passed
    · have hU : 0 < U32 := by decide
      have hstep := ih (acc ++ [evaluate_test o tc]) ((s + tc.weight) % U32)
        (Nat.mod_lt _ hU) hrest
      have hscore : ((s + tc.weight) % U32 + (rest.filterMap (passedWeight? job)).sum) % U32
          = (s + (tc.weight + (rest.filterMap (passedWeight? job)).sum)) % U32 := by
        rw [Nat.mod_add_mod, Nat.add_assoc]
      have hpw : passedWeight? job o = some tc.weight := by
        simp [passedWeight?, hf, hp]
      simp only [aggregateLoop, hf]
      rw [if_pos hp, hstep]
      simp [List.filterMap_cons, hf, hpw, List.append_assoc, hscore]
    · have hstep := ih (acc ++ [evaluate_test o tc]) s hs hrest
      have hpw : passedWeight? job o = none := by
        simp [passedWeight?, hf, hp]
      simp only [aggregateLoop, hf]
      rw [if_neg hp, hstep]
      simp [List.filterMap_cons, hf, hpw, List.append_assoc]

/-- Unfolding of a successful evaluation into its components. -/
lemma evaluate_eq_some (job : JobRequest) (outputs : List TestExecutionOutput)
    (r : ExecutionResult) (h : evaluate job outputs = some r) :
    r.job_id = job.id ∧
    r.results = outputs.filterMap (fun o => (findTestCase job o.test_id).map (evaluate_test o)) ∧
    r.score = (outputs.filterMap (passedWeight? job)).sum % U32 ∧
    r.max_score = u32Sum (job.test_cases.map (fun tc => tc.weight)) ∧
    r.overall_status = (if 0 < r.score then JobStatus.Completed else JobStatus.Failed) := by
  have hsome : (aggregateLoop job outputs [] 0).isSome := by
    by_contra hcon
    have hnone : aggregateLoop job outputs [] 0 = none :=
      Option.not_isSome_iff_eq_none.mp hcon
    unfold evaluate aggregate_results at h
    rw [hnone] at h
    cases h
  have hall := (aggregateLoop_isSome_iff job outputs [] 0).mp hsome
  have hspec := aggregateLoop_spec job outputs [] 0 (by decide) hall
  unfold evaluate aggregate_results at h
  rw [hspec, Option.map_some'] at h
  obtain rfl := Option.some.inj h
  refine ⟨rfl, by simp, by simp, rfl, by simp⟩

/-- Evaluation completes (does not hit the panic path) exactly when every
output's test_id occurs among the job's test-case ids. -/
lemma evaluate_isSome_iff (job : JobRequest) (outputs : List TestExecutionOutput) :
    (evaluate job outputs).isSome ↔
      ∀ o ∈ outputs, ∃ tc ∈ job.test_cases, tc.id = o.test_id := by
  unfold evaluate aggregate_results
  rw [Option.isSome_map']
  rw [aggregateLoop_isSome_iff]
  unfold findTestCase
  constructor
  · intro h o ho
    obtain ⟨tc, htc, hbeq⟩ := List.find?_isSome.mp (h o ho)
    exact ⟨tc, htc, by simpa using hbeq⟩
  · intro h o ho
    obtain ⟨tc, htc, hid⟩ := h o ho
    exact List.find?_isSome.mpr ⟨tc, htc, by simpa using hid⟩

/-- A filterMap over a list on which the function never returns none keeps
the length. -/
lemma length_filterMap_of_isSome {α β : Type} (f : α → Option β) :
    ∀ l : List α, (∀ a ∈ l, (f a).isSome) → (l.filterMap f).length = l.length := by
  intro l
  induction l with
  | nil => intro _; rfl
  | cons a t ih =>
    intro h
    obtain ⟨b, hb⟩ := Option.isSome_iff_exists.mp (h a (by simp))
    have ht := ih (fun x hx => h x (by simp [hx]))
    simp [List.filterMap_cons, hb, ht]

/-- passedWeight?, generalized over the test-case list (used to run the
erase-based induction for the score bound). -/
def passedWeightIn (tcs : List TestCase) (o : TestExecutionOutput) : Option Nat :=
  match tcs.find? (fun tc => tc.id == o.test_id) with
  | none => none
  | some tc => if (evaluate_test o tc).status = TestStatus.Passed then some tc.weight else none

lemma passedWeight?_eq (job : JobRequest) (o : TestExecutionOutput) :
    passedWeight? job o = passedWeightIn job.test_cases o := rfl

/-- Erasing (by predicate q) an element that cannot satisfy p does not change
what find? p finds. -/
lemma find?_eraseP_of_exclusive {α : Type} {p q : α → Bool}
    (h : ∀ x, q x = true → p x = false) :
    ∀ l : List α, (l.eraseP q).find? p = l.find? p := by
  intro l
  induction l with
  | nil => rfl
  | cons x xs ih =>
    cases hq : q x with
    | true =>
      have hpx : p x = false := h x hq
      have h1 : List.eraseP q (x :: xs) = xs := by simp [List.eraseP_cons, hq]
      have h2 : List.find? p (x :: xs) = List.find? p xs :=
        List.find?_cons_of_neg _ (by simp [hpx])
      rw [h1, h2]
    | false =>
      have h1 : List.eraseP q (x :: xs) = x :: List.eraseP q xs := by
        simp [List.eraseP_cons, hq]
      cases hpx : p x with
      | true =>
        rw [h1, List.find?_cons_of_pos _ hpx, List.find?_cons_of_pos _ hpx]
      | false =>
        rw [h1, List.find?_cons_of_neg _ (by simp [hpx]),
          List.find?_cons_of_neg _ (by simp [hpx]), ih]

/-- Removing the element that find? p returns splits the mapped sum. -/
lemma sum_map_eraseP {α : Type} (f : α → Nat) (p : α → Bool) :
    ∀ (l : List α) (a : α), l.find? p = some a →
    (l.map f).sum = f a + ((l.eraseP p).map f).sum := by
  intro l
  induction l with
  | nil => intro a ha; cases ha
  | cons x xs ih =>
    intro a ha
    cases hp : p x with
    | true =>
      rw [List.find?_cons_of_pos _ hp] at ha
      obtain rfl := Option.some.inj ha
      simp [List.eraseP_cons, hp]
    | false =>
      rw [List.find?_cons_of_neg _ (by simp [hp])] at ha
      have hxs := ih a ha
      have h1 : List.eraseP p (x :: xs) = x :: List.eraseP p xs := by
        simp [List.eraseP_cons, hp]
      rw [h1, List.map_cons, List.map_cons, List.sum_cons, List.sum_cons, hxs]
      omega

/-- The central bound: over outputs with pairwise-distinct test ids, the sum
of the weights of the passed tests never exceeds the sum of all test-case
weights (each passing output consumes a distinct test case). -/
lemma sum_passedWeightIn_le :
    ∀ (outputs : List TestExecutionOutput) (tcs : List TestCase),
    (outputs.map (fun o => o.test_id)).Nodup →
    (outputs.filterMap (passedWeightIn tcs)).sum ≤ (tcs.map (fun tc => tc.weight)).sum := by
  intro outputs
  induction outputs with
  | nil => intro tcs _; simp
  | cons o rest ih =>
    intro tcs hnd
    rw [List.map_cons, List.nodup_cons] at hnd
    obtain ⟨hno, hnd'⟩ := hnd
    cases hf : tcs.find? (fun tc => tc.id == o.test_id) with
    | none =>
      have hentry : passedWeightIn tcs o = none := by simp [passedWeightIn, hf]
      simpa [List.filterMap_cons, hentry] using ih tcs hnd'
    | some tc =>
      by_cases hp : (evaluate_test o tc).status = TestStatus.Passed
      · have hentry : passedWeightIn tcs o = some tc.weight := by
          simp [passedWeightIn, hf, hp]
        have hexcl : ∀ x : TestCase, (x.id == o.test_id) = true →
            ∀ o' ∈ rest, (x.id == o'.test_id) = false := by
          intro x hx o' ho'
          have hxid : x.id = o.test_id := by simpa using hx
          have : o.test_id ≠ o'.test_id := by
            intro hcon
            exact hno (hcon ▸ List.mem_map_of_mem (fun o => o.test_id) ho')
          simp [hxid, this]
        have hcongr : rest.filterMap (passedWeightIn tcs)
            = rest.filterMap (passedWeightIn (tcs.eraseP (fun tc => tc.id == o.test_id))) := by
          apply List.filterMap_congr
          intro o' ho'
          unfold passedWeightIn
          rw [find?_eraseP_of_exclusive (fun x hx => hexcl x hx o' ho') tcs]
        have hsplit : (tcs.map (fun tc => tc.weight)).sum
            = tc.weight + ((tcs.eraseP (fun tc => tc.id == o.test_id)).map
                (fun tc => tc.weight)).sum := by
          simpa using sum_map_eraseP (fun tc => tc.weight) (fun tc => tc.id == o.test_id) tcs tc hf
        have hih := ih (tcs.eraseP (fun tc => tc.id == o.test_id)) hnd'
        rw [List.filterMap_cons, hentry, List.sum_cons, hcongr, hsplit]
        omega
      · have hentry : passedWeightIn tcs o = none := by
          simp [passedWeightIn, hf, hp]
        simpa [List.filterMap_cons, hentry] using ih tcs hnd'

/-- Summing the filterMap of an optional-Nat function is summing the
0-defaulted values. -/
lemma sum_filterMap_eq_sum_getD {α : Type} (f : α → Option Nat) :
    ∀ l : List α, (l.filterMap f).sum = (l.map (fun a => (f a).getD 0)).sum := by
  intro l
  induction l with
  | nil => rfl
  | cons a t ih =>
    cases hfa : f a with
    | none => simp [List.filterMap_cons, hfa, ih]
    | some w => simp [List.filterMap_cons, hfa, ih]

/-! ## Claims about the evaluator -/

/-- Claim C1: an output with runtime_error, timed_out or compilation_failed
set never evaluates to Passed, whatever its stdout; consequently it
contributes 0 to the job's score (the score being the wrapped sum of the
per-output contributions). -/
theorem c1_error_flags_never_pass :
    (∀ (o : TestExecutionOutput) (tc : TestCase),
      o.runtime_error = true ∨ o.timed_out = true ∨ o.compilation_failed = true →
      (evaluate_test o tc).status ≠ TestStatus.Passed)
    ∧ (∀ (job : JobRequest) (o : TestExecutionOutput),
      o.runtime_error = true ∨ o.timed_out = true ∨ o.compilation_failed = true →
      scoreContribution job o = 0)
    ∧ (∀ (job : JobRequest) (outputs : List TestExecutionOutput) (r : ExecutionResult),
      evaluate job outputs = some r →
      r.score = (outputs.map (scoreContribution job)).sum % U32) := by
  have h1 : ∀ (o : TestExecutionOutput) (tc : TestCase),
      o.runtime_error = true ∨ o.timed_out = true ∨ o.compilation_failed = true →
      (evaluate_test o tc).status ≠ TestStatus.Passed := by
    intro o tc h
    cases hcf : o.compilation_failed <;> cases hre : o.runtime_error <;>
      cases hto : o.timed_out <;> simp_all [evaluate_test]
  have h2 : ∀ (job : JobRequest) (o : TestExecutionOutput),
      o.runtime_error = true ∨ o.timed_out = true ∨ o.compilation_failed = true →
      scoreContribution job o = 0 := by
    intro job o h
    unfold scoreContribution passedWeight?
    cases hf : findTestCase job o.test_id with
    | none => rfl
    | some tc => simp [h1 o tc h]
  refine ⟨h1, h2, ?_⟩
  intro job outputs r h
  obtain ⟨-, -, hscore, -, -⟩ := evaluate_eq_some job outputs r h
  rw [hscore, sum_filterMap_eq_sum_getD]
  rfl

/-- Witness for C1 at a concrete flagged output: matching stdout, but the
runtime_error flag forbids Passed and the contribution is 0. -/
theorem c1_error_flags_never_pass_witness :
    (evaluate_test
      { test_id := 1, stdout := "x", stderr := "err", execution_time_ms := 3, timed_out := false, runtime_error := true, compilation_failed := false }
      { id := 1, input := "", expected_output := "x", weight := 5 }).status
      ≠ TestStatus.Passed :=
  c1_error_flags_never_pass.1 _ _ (Or.inl rfl)

/-- The job used to refute claim C3 as universally stated: one test case of
weight 1. -/
def c3Job : JobRequest :=
  { id := 7
    language := Language.Python
    source_code := "s"
    test_cases := [{ id := 1, input := "", expected_output := "x", weight := 1 }]
    timeout_ms := 5
    metadata := JobMetadata.default }

/-- A passing output for c3Job's single test case. -/
def c3Output : TestExecutionOutput :=
  { test_id := 1, stdout := "x", stderr := "", execution_time_ms := 3,
    timed_out := false, runtime_error := false, compilation_failed := false }

/-- Counterexample to claim C3 as stated: aggregate_results walks the outputs
list, so feeding the same passing output twice yields score 2 against
max_score 1, violating score ≤ max_score. -/
theorem c3_counterexample :
    (evaluate c3Job [c3Output, c3Output]).map (fun r => (r.score, r.max_score)) = some (2, 1)
    ∧ ¬ (2 : Nat) ≤ 1 := by
  constructor
  · decide
  · decide

/-- Claim C3 (amended): when the outputs carry pairwise-distinct test ids (as
the engine guarantees, one output per test case) and the total weight does not
overflow u32, every result of evaluate satisfies max_score = Σ all weights,
score = Σ weights of passed tests, and 0 ≤ score ≤ max_score. -/
theorem c3_amended (job : JobRequest) (outputs : List TestExecutionOutput)
    (r : ExecutionResult) (h : evaluate job outputs = some r)
    (hnd : (outputs.map (fun o => o.test_id)).Nodup)
    (hov : (job.test_cases.map (fun tc => tc.weight)).sum < U32) :
    r.max_score = (job.test_cases.map (fun tc => tc.weight)).sum
    ∧ r.score = (outputs.filterMap (passedWeight? job)).sum
    ∧ 0 ≤ r.score ∧ r.score ≤ r.max_score := by
  obtain ⟨-, -, hscore, hmax, -⟩ := evaluate_eq_some job outputs r h
  have hble : (outputs.filterMap (passedWeight? job)).sum
      ≤ (job.test_cases.map (fun tc => tc.weight)).sum := by
    have hb := sum_passedWeightIn_le outputs job.test_cases hnd
    have hpe : outputs.filterMap (passedWeight? job)
        = outputs.filterMap (passedWeightIn job.test_cases) :=
      List.filterMap_congr (fun o _ => passedWeight?_eq job o)
    rw [hpe]
    exact hb
  have hmax' : r.max_score = (job.test_cases.map (fun tc => tc.weight)).sum := by
    rw [hmax, u32Sum_eq, Nat.mod_eq_of_lt hov]
  have hscore' : r.score = (outputs.filterMap (passedWeight? job)).sum := by
    rw [hscore, Nat.mod_eq_of_lt (lt_of_le_of_lt hble hov)]
  refine ⟨hmax', hscore', Nat.zero_le _, ?_⟩
  rw [hscore', hmax']
  exact hble

/-- Witness for the amended C3 at a concrete job and output list. -/
theorem c3_amended_witness :
    (evaluate c3Job [c3Output]).map (fun r => (r.max_score, r.score)) = some (1, 1) := by
  obtain ⟨r, hr⟩ : ∃ r, evaluate c3Job [c3Output] = some r := by
    refine Option.isSome_iff_exists.mp ?_
    decide
  obtain ⟨hmax, hscore, -, -⟩ := c3_amended c3Job [c3Output] r hr (by decide) (by decide)
  rw [hr, Option.map_some']
  have h1 : ([c3Output].filterMap (passedWeight? c3Job)).sum = 1 := by decide
  have h2 : (c3Job.test_cases.map (fun tc => tc.weight)).sum = 1 := by decide
  rw [hmax, hscore, h1, h2]

/-- Claim C4: a result of evaluate has overall_status Completed exactly when
its score is positive, Failed exactly when it is zero, and a job whose
test-case weights sum to zero is always reported Failed, even if every test
passes. -/
theorem c4_overall_status_iff_score_pos (job : JobRequest)
    (outputs : List TestExecutionOutput) (r : ExecutionResult)
    (h : evaluate job outputs = some r) :
    (r.overall_status = JobStatus.Completed ↔ 0 < r.score)
    ∧ (r.overall_status = JobStatus.Failed ↔ r.score = 0)
    ∧ ((job.test_cases.map (fun tc => tc.weight)).sum = 0 →
        r.overall_status = JobStatus.Failed) := by
  obtain ⟨-, -, hscore, -, hstat⟩ := evaluate_eq_some job outputs r h
  have hiff1 : r.overall_status = JobStatus.Completed ↔ 0 < r.score := by
    by_cases h0 : 0 < r.score <;> simp [hstat, h0]
  have hiff2 : r.overall_status = JobStatus.Failed ↔ r.score = 0 := by
    by_cases h0 : 0 < r.score <;> simp [hstat, h0] <;> omega
  refine ⟨hiff1, hiff2, ?_⟩
  intro hw
  have hz : ∀ w ∈ outputs.filterMap (passedWeight? job), w = 0 := by
    intro w hw'
    obtain ⟨o, ho, hpw⟩ := List.mem_filterMap.mp hw'
    cases hf : findTestCase job o.test_id with
    | none => simp [passedWeight?, hf] at hpw
    | some tc =>
      by_cases hp : (evaluate_test o tc).status = TestStatus.Passed
      · have hpw' : tc.weight = w := by
          simpa [passedWeight?, hf, hp] using hpw
        have htc : tc ∈ job.test_cases := List.mem_of_find?_eq_some hf
        have h0 : tc.weight = 0 := by
          simpa using List.sum_eq_zero_iff.mp hw _
            (List.mem_map_of_mem (fun tc : TestCase => tc.weight) htc)
        omega
      · simp [passedWeight?, hf, hp] at hpw
  have hsum0 : (outputs.filterMap (passedWeight? job)).sum = 0 :=
    List.sum_eq_zero_iff.mpr hz
  apply hiff2.mpr
  rw [hscore, hsum0, Nat.zero_mod]

/-- A job with a single zero-weight test case (matching c3Output). -/
def c4Job : JobRequest :=
  { id := 8
    language := Language.Python
    source_code := "s"
    test_cases := [{ id := 1, input := "", expected_output := "x", weight := 0 }]
    timeout_ms := 5
    metadata := JobMetadata.default }

/-- Witness for C4: a passing test of weight 0 still yields a Failed job. -/
theorem c4_overall_status_iff_score_pos_witness :
    (evaluate c4Job [c3Output]).map (fun r => r.overall_status) = some JobStatus.Failed := by
  obtain ⟨r, hr⟩ : ∃ r, evaluate c4Job [c3Output] = some r := by
    refine Option.isSome_iff_exists.mp ?_
    decide
  obtain ⟨-, -, hzero⟩ := c4_overall_status_iff_score_pos c4Job [c3Output] r hr
  rw [hr, Option.map_some', hzero (by decide)]

/-- Claim C10: evaluate completes exactly when every output's test_id occurs
among the job's test-case ids; a single unmatched output hits the panic path
(modelled as none). -/
theorem c10_panics_iff_unmatched (job : JobRequest) (outputs : List TestExecutionOutput) :
    (evaluate job outputs = none ↔
      ∃ o ∈ outputs, ∀ tc ∈ job.test_cases, tc.id ≠ o.test_id)
    ∧ ((∀ o ∈ outputs, ∃ tc ∈ job.test_cases, tc.id = o.test_id) →
      (evaluate job outputs).isSome) := by
  have hnot := not_iff_not.mpr (evaluate_isSome_iff job outputs)
  rw [Option.not_isSome_iff_eq_none] at hnot
  push_neg at hnot
  exact ⟨hnot, fun hall => (evaluate_isSome_iff job outputs).mpr hall⟩

/-- An output whose test_id (99) matches no test case of c3Job. -/
def c10BadOutput : TestExecutionOutput :=
  { test_id := 99, stdout := "", stderr := "", execution_time_ms := 0,
    timed_out := false, runtime_error := false, compilation_failed := false }

/-- Witness for C10: an output with an unknown test_id makes evaluation hit
the panic path on a concrete job. -/
theorem c10_panics_iff_unmatched_witness :
    evaluate c3Job [c10BadOutput] = none := by
  apply (c10_panics_iff_unmatched c3Job [c10BadOutput]).1.mpr
  refine ⟨c10BadOutput, by simp, ?_⟩
  intro tc htc
  fin_cases htc
  decide

/-! ## Lemmas about Rust trim -/

/-- dropWhile over an append whose first part is all-satisfying skips it. -/
lemma dropWhile_append_all {α : Type} {p : α → Bool} :
    ∀ (xs ys : List α), (∀ a ∈ xs, p a = true) →
    (xs ++ ys).dropWhile p = ys.dropWhile p := by
  intro xs
  induction xs with
  | nil => intro ys _; rfl
  | cons x t ih =>
    intro ys h
    have hx : p x = true := h x (by simp)
    simp only [List.cons_append, List.dropWhile_cons, hx, if_true]
    exact ih ys (fun a ha => h a (by simp [ha]))

/-- dropWhile over an append stops inside a first part it does not exhaust. -/
lemma dropWhile_append_left {α : Type} {p : α → Bool} :
    ∀ (xs ys : List α), xs.dropWhile p ≠ [] →
    (xs ++ ys).dropWhile p = xs.dropWhile p ++ ys := by
  intro xs
  induction xs with
  | nil => intro ys h; exact absurd rfl h
  | cons x t ih =>
    intro ys h
    cases hx : p x with
    | true =>
      rw [List.dropWhile_cons, if_pos hx] at h
      simp only [List.cons_append, List.dropWhile_cons, hx, if_true]
      exact ih ys h
    | false =>
      simp [List.cons_append, List.dropWhile_cons, hx]

/-- The head of a nonempty dropWhile result fails the predicate. -/
lemma head_dropWhile_false {α : Type} {p : α → Bool} :
    ∀ (l : List α) (x : α) (xs : List α), l.dropWhile p = x :: xs → p x = false := by
  intro l
  induction l with
  | nil => intro x xs h; cases h
  | cons a t ih =>
    intro x xs h
    cases ha : p a with
    | true =>
      rw [List.dropWhile_cons, if_pos ha] at h
      exact ih x xs h
    | false =>
      rw [List.dropWhile_cons, if_neg (by simp [ha])] at h
      obtain rfl := (List.cons.injEq _ _ _ _ ▸ h).1
      exact ha

/-- dropWhile is idempotent. -/
lemma dropWhile_dropWhile {α : Type} {p : α → Bool} (l : List α) :
    (l.dropWhile p).dropWhile p = l.dropWhile p := by
  cases h : l.dropWhile p with
  | nil => rfl
  | cons x xs =>
    have hx := head_dropWhile_false l x xs h
    rw [List.dropWhile_cons, if_neg (by simp [hx])]

/-- The reverse of a trimmed list has no leading whitespace left. -/
lemma trimList_reverse_dropWhile (l : List Char) :
    (rustTrimList l).reverse.dropWhile rustIsWhitespace = (rustTrimList l).reverse := by
  unfold rustTrimList
  rw [List.reverse_reverse]
  exact dropWhile_dropWhile _

/-- A trimmed list has no leading whitespace left. -/
lemma trimList_dropWhile (l : List Char) :
    (rustTrimList l).dropWhile rustIsWhitespace = rustTrimList l := by
  cases he : rustTrimList l with
  | nil => rfl
  | cons c rest =>
    have hsplit : rustTrimList l ++
        (((l.dropWhile rustIsWhitespace).reverse).takeWhile rustIsWhitespace).reverse
        = l.dropWhile rustIsWhitespace := by
      unfold rustTrimList
      rw [← List.reverse_append, List.takeWhile_append_dropWhile, List.reverse_reverse]
    rw [he] at hsplit
    have hd : l.dropWhile rustIsWhitespace = c ::
        (rest ++ (((l.dropWhile rustIsWhitespace).reverse).takeWhile rustIsWhitespace).reverse) := by
      rw [← List.cons_append]
      exact hsplit.symm
    have hc : rustIsWhitespace c = false := head_dropWhile_false _ _ _ hd
    rw [List.dropWhile_cons, if_neg (by simp [hc])]

/-- Rust trim is idempotent (list level). -/
lemma trimList_idem (l : List Char) :
    rustTrimList (rustTrimList l) = rustTrimList l := by
  show ((((rustTrimList l).dropWhile rustIsWhitespace).reverse).dropWhile
    rustIsWhitespace).reverse = rustTrimList l
  rw [trimList_dropWhile, trimList_reverse_dropWhile, List.reverse_reverse]

/-- Appending trailing whitespace does not change the trimmed list. -/
lemma trimList_append_ws (l w : List Char)
    (hw : ∀ c ∈ w, rustIsWhitespace c = true) :
    rustTrimList (l ++ w) = rustTrimList l := by
  cases hdl : l.dropWhile rustIsWhitespace with
  | nil =>
    have hl : ∀ a ∈ l, rustIsWhitespace a = true := List.dropWhile_eq_nil_iff.mp hdl
    have h1 : (l ++ w).dropWhile rustIsWhitespace = w.dropWhile rustIsWhitespace :=
      dropWhile_append_all l w hl
    have hw' : ∀ a ∈ (w.dropWhile rustIsWhitespace).reverse, rustIsWhitespace a = true := by
      intro a ha
      exact hw a ((List.dropWhile_sublist rustIsWhitespace).subset (List.mem_reverse.mp ha))
    unfold rustTrimList
    rw [h1, hdl, List.dropWhile_eq_nil_iff.mpr hw']
    simp
  | cons x xs =>
    have h1 : (l ++ w).dropWhile rustIsWhitespace = (x :: xs) ++ w := by
      rw [dropWhile_append_left l w (by rw [hdl]; simp), hdl]
    unfold rustTrimList
    rw [h1, hdl, List.reverse_append]
    rw [dropWhile_append_all w.reverse (x :: xs).reverse
      (fun a ha => hw a (List.mem_reverse.mp ha))]

/-- Trimming removes a whitespace-only prefix and a whitespace-only suffix
and nothing else: the input splits around the trimmed list. -/
lemma trimList_split (l : List Char) :
    ∃ pre post : List Char,
      (∀ c ∈ pre, rustIsWhitespace c = true) ∧
      (∀ c ∈ post, rustIsWhitespace c = true) ∧
      l = pre ++ rustTrimList l ++ post := by
  refine ⟨l.takeWhile rustIsWhitespace,
    (((l.dropWhile rustIsWhitespace).reverse).takeWhile rustIsWhitespace).reverse,
    ?_, ?_, ?_⟩
  · intro c hc; exact List.mem_takeWhile_imp hc
  · intro c hc; exact List.mem_takeWhile_imp (List.mem_reverse.mp hc)
  · have hmid : l.dropWhile rustIsWhitespace = rustTrimList l ++
        (((l.dropWhile rustIsWhitespace).reverse).takeWhile rustIsWhitespace).reverse := by
      unfold rustTrimList
      rw [← List.reverse_append, List.takeWhile_append_dropWhile, List.reverse_reverse]
    conv_lhs => rw [← List.takeWhile_append_dropWhile rustIsWhitespace l, hmid]
    rw [List.append_assoc]

/-- The trimmed list is empty exactly when the input is all whitespace. -/
lemma trimList_eq_nil_iff (l : List Char) :
    rustTrimList l = [] ↔ ∀ c ∈ l, rustIsWhitespace c = true := by
  constructor
  · intro h
    obtain ⟨pre, post, hpre, hpost, hsplit⟩ := trimList_split l
    rw [h] at hsplit
    intro c hc
    rw [hsplit] at hc
    rcases List.mem_append.mp hc with hc' | hc'
    · rcases List.mem_append.mp hc' with hc'' | hc''
      · exact hpre c hc''
      · cases hc''
    · exact hpost c hc'
  · intro h
    unfold rustTrimList
    rw [List.dropWhile_eq_nil_iff.mpr h]
    rfl

/-- Two strings are equal exactly when their character lists are. -/
lemma string_eq_iff_data (s t : String) : s = t ↔ s.data = t.data :=
  ⟨congrArg String.data, String.ext⟩

/-- rustTrim produces the empty string exactly on all-whitespace input. -/
lemma rustTrim_eq_empty_iff (s : String) :
    rustTrim s = "" ↔ ∀ c ∈ s.data, rustIsWhitespace c = true := by
  rw [string_eq_iff_data]
  show rustTrimList s.data = "".data ↔ _
  exact trimList_eq_nil_iff s.data

/-! ## Claims about normalization and the per-test status -/

/-- Claim C9: normalization (trim) absorbs any trailing whitespace, in
particular a trailing newline; it is idempotent; and it only removes a
whitespace prefix and a whitespace suffix, leaving the inner content (internal
whitespace and case) as an exact contiguous substring. -/
theorem c9_normalize_laws :
    (∀ x w : String, (∀ c ∈ w.data, rustIsWhitespace c = true) →
      normalize_output (x ++ w) = normalize_output x)
    ∧ (∀ x : String, normalize_output (x ++ "\n") = normalize_output x)
    ∧ (∀ x : String, normalize_output (normalize_output x) = normalize_output x)
    ∧ (∀ x : String, ∃ pre post : String,
        (∀ c ∈ pre.data, rustIsWhitespace c = true) ∧
        (∀ c ∈ post.data, rustIsWhitespace c = true) ∧
        x = pre ++ normalize_output x ++ post) := by
  have hA : ∀ x w : String, (∀ c ∈ w.data, rustIsWhitespace c = true) →
      normalize_output (x ++ w) = normalize_output x := by
    intro x w hw
    apply String.ext
    show rustTrimList (x ++ w).data = rustTrimList x.data
    rw [String.data_append]
    exact trimList_append_ws x.data w.data hw
  refine ⟨hA, ?_, ?_, ?_⟩
  · intro x
    apply hA
    intro c hc
    have hc' : c = '\n' := by simpa using hc
    rw [hc']
    decide
  · intro x
    apply String.ext
    show rustTrimList (rustTrimList x.data) = rustTrimList x.data
    exact trimList_idem x.data
  · intro x
    obtain ⟨pre, post, hpre, hpost, hsplit⟩ := trimList_split x.data
    refine ⟨⟨pre⟩, ⟨post⟩, hpre, hpost, ?_⟩
    apply String.ext
    rw [String.data_append, String.data_append]
    exact hsplit

/-- Witness for C9 on concrete strings: a trailing blank is absorbed. -/
theorem c9_normalize_laws_witness :
    normalize_output ("a" ++ " ") = normalize_output "a" :=
  c9_normalize_laws.1 "a" " " (by decide)

/-- Claim C2: evaluate_test resolves the status by first-match precedence:
compilation_failed, then runtime_error (both RuntimeError), then timed_out
(TimeLimitExceeded), then any non-whitespace stderr content (Failed, even if
stdout matches), and otherwise Passed exactly when the normalized stdout
equals the normalized expected output. -/
theorem c2_status_precedence (o : TestExecutionOutput) (tc : TestCase) :
    (o.compilation_failed = true →
      (evaluate_test o tc).status = TestStatus.RuntimeError)
    ∧ (o.compilation_failed = false → o.runtime_error = true →
      (evaluate_test o tc).status = TestStatus.RuntimeError)
    ∧ (o.compilation_failed = false → o.runtime_error = false → o.timed_out = true →
      (evaluate_test o tc).status = TestStatus.TimeLimitExceeded)
    ∧ (o.compilation_failed = false → o.runtime_error = false → o.timed_out = false →
      (∃ c ∈ o.stderr.data, rustIsWhitespace c = false) →
      (evaluate_test o tc).status = TestStatus.Failed)
    ∧ (o.compilation_failed = false → o.runtime_error = false → o.timed_out = false →
      (∀ c ∈ o.stderr.data, rustIsWhitespace c = true) →
      ((evaluate_test o tc).status = TestStatus.Passed ↔
        normalize_output o.stdout = normalize_output tc.expected_output)) := by
  refine ⟨?_, ?_, ?_, ?_, ?_⟩
  · intro hcf; simp [evaluate_test, hcf]
  · intro hcf hre; simp [evaluate_test, hcf, hre]
  · intro hcf hre hto; simp [evaluate_test, hcf, hre, hto]
  · intro hcf hre hto hex
    have hne : rustTrim o.stderr ≠ "" := by
      intro hcon
      obtain ⟨c, hc, hcws⟩ := hex
      rw [(rustTrim_eq_empty_iff o.stderr).mp hcon c hc] at hcws
      cases hcws
    simp [evaluate_test, hcf, hre, hto, hne]
  · intro hcf hre hto hws
    have he : rustTrim o.stderr = "" := (rustTrim_eq_empty_iff o.stderr).mpr hws
    by_cases heq : normalize_output o.stdout = normalize_output tc.expected_output <;>
      simp [evaluate_test, hcf, hre, hto, he, heq]

/-- Witness for C2: a concrete output with non-whitespace stderr and matching
stdout is still Failed. -/
theorem c2_status_precedence_witness :
    (evaluate_test
      { test_id := 1, stdout := "x", stderr := "warning", execution_time_ms := 1, timed_out := false, runtime_error := false, compilation_failed := false }
      { id := 1, input := "", expected_output := "x", weight := 3 }).status
      = TestStatus.Failed :=
  (c2_status_precedence _ _).2.2.2.1 rfl rfl rfl ⟨'w', by decide, by decide⟩

/-! ## Claims about cancellation (engine + evaluator + worker write) -/

/-- With the cancellation flag raised from iteration k on, the per-test loop
executes exactly the first k - idx test cases. -/
lemma runTests_take (k : Nat) (e : TestCase → TestExecutionOutput) :
    ∀ (tcs : List TestCase) (idx : Nat),
    runTestsWithCancellation (fun i => decide (k ≤ i)) e tcs idx
      = (tcs.take (k - idx)).map (fun tc => setTestId (e tc) tc.id) := by
  intro tcs
  induction tcs with
  | nil => intro idx; simp [runTestsWithCancellation]
  | cons tc rest ih =>
    intro idx
    by_cases hk : k ≤ idx
    · have h0 : k - idx = 0 := by omega
      simp [runTestsWithCancellation, hk, h0]
    · have h1 : k - idx = (k - (idx + 1)) + 1 := by omega
      simp only [runTestsWithCancellation, hk, decide_False, Bool.false_eq_true,
        if_false, h1, List.take_succ_cons, List.map_cons]
      rw [ih (idx + 1)]

/-- The job used for the C5 counterexample: two test cases; the execution
function produces a wrong answer for each. -/
def c5Job : JobRequest :=
  { id := 9
    language := Language.Python
    source_code := "s"
    test_cases := [{ id := 1, input := "", expected_output := "y", weight := 1 },
                   { id := 2, input := "", expected_output := "y", weight := 1 }]
    timeout_ms := 5
    metadata := JobMetadata.default }

/-- A clean (unflagged) execution with non-matching stdout for every test. -/
def c5Exec : TestCase → TestExecutionOutput := fun tc =>
  { test_id := tc.id, stdout := "n", stderr := "", execution_time_ms := 1,
    timed_out := false, runtime_error := false, compilation_failed := false }

/-- Counterexample to claim C5 as stated: with the cancellation flag observed
after 1 of 2 tests, the result the worker writes does contain exactly the one
partial TestResult, but its overall_status is Failed (or Completed when the
partial score is positive) - the worker never writes Cancelled. -/
theorem c5_counterexample :
    (evaluate c5Job
      (runTestsWithCancellation (fun i => decide (1 ≤ i)) c5Exec c5Job.test_cases 0)).map
      (fun r => (r.results.length, r.overall_status)) = some (1, JobStatus.Failed)
    ∧ JobStatus.Failed ≠ JobStatus.Cancelled := by
  exact ⟨by decide, by decide⟩

/-- Claim C5 (amended): when the worker observes the cancellation flag after k
of the n test cases (flag false before tests 0..k-1 and true from test k on),
the result it writes contains exactly the k partial TestResults; its
overall_status, however, is never Cancelled: it is Completed exactly when the
partial score is positive and Failed otherwise. -/
theorem c5_amended (job : JobRequest) (e : TestCase → TestExecutionOutput) (k : Nat)
    (hk : k ≤ job.test_cases.length) :
    ∃ r, evaluate job
        (runTestsWithCancellation (fun i => decide (k ≤ i)) e job.test_cases 0) = some r
      ∧ r.results.length = k
      ∧ r.overall_status ≠ JobStatus.Cancelled
      ∧ (r.overall_status = JobStatus.Completed ↔ 0 < r.score) := by
  have houts : runTestsWithCancellation (fun i => decide (k ≤ i)) e job.test_cases 0
      = (job.test_cases.take k).map (fun tc => setTestId (e tc) tc.id) := by
    rw [runTests_take, Nat.sub_zero]
  have hall : ∀ o ∈ (job.test_cases.take k).map (fun tc => setTestId (e tc) tc.id),
      ∃ tc ∈ job.test_cases, tc.id = o.test_id := by
    intro o ho
    obtain ⟨tc, htc, rfl⟩ := List.mem_map.mp ho
    exact ⟨tc, List.take_subset k job.test_cases htc, rfl⟩
  have hsome := (evaluate_isSome_iff job _).mpr hall
  obtain ⟨r, hr⟩ := Option.isSome_iff_exists.mp hsome
  obtain ⟨-, hres, -, -, hstat⟩ := evaluate_eq_some job _ r hr
  refine ⟨r, by rw [houts]; exact hr, ?_, ?_, ?_⟩
  · rw [hres]
    have hlen1 : ∀ o ∈ (job.test_cases.take k).map (fun tc => setTestId (e tc) tc.id),
        (findTestCase job o.test_id).isSome := by
      intro o ho
      obtain ⟨tc, htc, hid⟩ := hall o ho
      exact List.find?_isSome.mpr ⟨tc, htc, by simpa using hid⟩
    have hlen2 : ∀ o ∈ (job.test_cases.take k).map (fun tc => setTestId (e tc) tc.id),
        ((findTestCase job o.test_id).map (evaluate_test o)).isSome := by
      intro o ho
      rw [Option.isSome_map']
      exact hlen1 o ho
    rw [length_filterMap_of_isSome _ _ hlen2]
    simp [List.length_take]
    omega
  · rw [hstat]
    by_cases h0 : 0 < r.score <;> simp [h0]
  · rw [hstat]
    by_cases h0 : 0 < r.score <;> simp [h0]

/-- Witness for the amended C5 at the concrete two-test job, cancelled after
one test. -/
theorem c5_amended_witness :
    ∃ r, evaluate c5Job
        (runTestsWithCancellation (fun i => decide (1 ≤ i)) c5Exec c5Job.test_cases 0) = some r
      ∧ r.results.length = 1
      ∧ r.overall_status ≠ JobStatus.Cancelled
      ∧ (r.overall_status = JobStatus.Completed ↔ 0 < r.score) :=
  c5_amended c5Job c5Exec 1 (by decide)

/-! ## Claims about infrastructure-failure handling -/

/-- Evaluating the fabricated compilation-error outputs: one RuntimeError
TestResult per test case, score 0, overall status Failed. -/
lemma evaluate_compilation_error (job : JobRequest) (msg : String) :
    ∃ r, evaluate job (create_compilation_error_outputs job.test_cases msg) = some r
      ∧ r.results.length = job.test_cases.length
      ∧ (∀ tr ∈ r.results, tr.status = TestStatus.RuntimeError)
      ∧ r.score = 0
      ∧ r.overall_status = JobStatus.Failed := by
  have hall : ∀ o ∈ create_compilation_error_outputs job.test_cases msg,
      ∃ tc ∈ job.test_cases, tc.id = o.test_id := by
    intro o ho
    obtain ⟨tc, htc, rfl⟩ := List.mem_map.mp ho
    exact ⟨tc, htc, rfl⟩
  have hcf : ∀ o ∈ create_compilation_error_outputs job.test_cases msg,
      o.compilation_failed = true := by
    intro o ho
    obtain ⟨tc, htc, rfl⟩ := List.mem_map.mp ho
    rfl
  have hsome := (evaluate_isSome_iff job _).mpr hall
  obtain ⟨r, hr⟩ := Option.isSome_iff_exists.mp hsome
  obtain ⟨-, hres, hscore, -, hstat⟩ := evaluate_eq_some job _ r hr
  have hfindSome : ∀ o ∈ create_compilation_error_outputs job.test_cases msg,
      (findTestCase job o.test_id).isSome := by
    intro o ho
    obtain ⟨tc, htc, hid⟩ := hall o ho
    exact List.find?_isSome.mpr ⟨tc, htc, by simpa using hid⟩
  have hscore0 : r.score = 0 := by
    have hnone : ∀ o ∈ create_compilation_error_outputs job.test_cases msg,
        passedWeight? job o = none := by
      intro o ho
      cases hf : findTestCase job o.test_id with
      | none => simp [passedWeight?, hf]
      | some tc' =>
        have hst : (evaluate_test o tc').status = TestStatus.RuntimeError := by
          simp [evaluate_test, hcf o ho]
        simp [passedWeight?, hf, hst]
    rw [hscore, List.filterMap_eq_nil_iff.mpr hnone]
    rfl
  refine ⟨r, hr, ?_, ?_, hscore0, ?_⟩
  · rw [hres]
    have hlen : ∀ o ∈ create_compilation_error_outputs job.test_cases msg,
        ((findTestCase job o.test_id).map (evaluate_test o)).isSome := by
      intro o ho
      rw [Option.isSome_map']
      exact hfindSome o ho
    rw [length_filterMap_of_isSome _ _ hlen]
    simp [create_compilation_error_outputs]
  · intro tr htr
    rw [hres] at htr
    obtain ⟨o, ho, hmap⟩ := List.mem_filterMap.mp htr
    obtain ⟨tc', hf, rfl⟩ := Option.map_eq_some'.mp hmap
    simp [evaluate_test, hcf o ho]
  · rw [hstat, hscore0]
    simp

/-- The job used for the C6 counterexample: one test case of weight 10,
default metadata (attempts 0, max_attempts 3). -/
def c6Job : JobRequest :=
  { id := 10
    language := Language.Python
    source_code := "s"
    test_cases := [{ id := 1, input := "", expected_output := "x", weight := 10 }]
    timeout_ms := 5
    metadata := JobMetadata.default }

/-- Never-raised cancellation flag. -/
def c6Cancel : Nat → Bool := fun _ => false

/-- A clean execution with correct stdout for every test (never reached when
the infrastructure fails). -/
def c6Exec : TestCase → TestExecutionOutput := fun tc =>
  { test_id := tc.id, stdout := "x", stderr := "", execution_time_ms := 1,
    timed_out := false, runtime_error := false, compilation_failed := false }

/-- Counterexample to claim C6 as stated: when the image pull fails, the
worker does not increment attempts and pushes nothing to the retry queue or
the DLQ; instead the engine fabricates outputs flagged compilation_failed and
the worker writes a final Failed result whose TestResult is RuntimeError -
exactly a user-visible compilation-style failure. -/
theorem c6_counterexample :
    (worker_process_job c6Job (WorkerEvent.engineRan (EngineEvent.pullFailure "connection refused")) c6Cancel c6Exec).retryPush = none
    ∧ (worker_process_job c6Job (WorkerEvent.engineRan (EngineEvent.pullFailure "connection refused")) c6Cancel c6Exec).dlqPush = none
    ∧ (worker_process_job c6Job (WorkerEvent.engineRan (EngineEvent.pullFailure "connection refused")) c6Cancel c6Exec).resultWrite.map
        (fun r => (r.overall_status, r.score, r.results.map (fun tr => tr.status)))
      = some (JobStatus.Failed, 0, [TestStatus.RuntimeError])
    ∧ (execute_job_in_single_container c6Job (EngineEvent.pullFailure "connection refused") c6Cancel c6Exec).map
        (fun o => o.compilation_failed) = [true] := by
  exact ⟨by decide, by decide, by decide, by decide⟩

/-- Claim C6 (amended): an image-pull, container-create or container-start
failure is not treated as an infrastructure failure: the engine converts it
into per-test compilation_failed outputs, the worker writes the evaluated
Failed, score-0, all-RuntimeError result, and neither increments attempts nor
touches the retry queue or DLQ.  Only a failure to construct the Docker
engine (daemon connection) takes the retry path: attempts + 1, retry queue
while attempts stay below max_attempts, otherwise DLQ plus the synthetic
Failed score-0 result. -/
theorem c6_amended (job : JobRequest) (msg : String) (cancelled : Nat → Bool)
    (execOne : TestCase → TestExecutionOutput) :
    (∀ ev ∈ [EngineEvent.pullFailure msg, EngineEvent.createFailure msg,
        EngineEvent.startFailure msg],
      (worker_process_job job (WorkerEvent.engineRan ev) cancelled execOne).retryPush = none
      ∧ (worker_process_job job (WorkerEvent.engineRan ev) cancelled execOne).dlqPush = none
      ∧ ∃ r, (worker_process_job job (WorkerEvent.engineRan ev) cancelled execOne).resultWrite
            = some r
          ∧ r.overall_status = JobStatus.Failed
          ∧ r.score = 0
          ∧ r.results.length = job.test_cases.length
          ∧ ∀ tr ∈ r.results, tr.status = TestStatus.RuntimeError)
    ∧ (job.metadata.attempts + 1 < job.metadata.max_attempts →
      worker_process_job job (WorkerEvent.engineInitFailure msg) cancelled execOne
        = { resultWrite := none, retryPush := some (bumpAttempts job msg), dlqPush := none })
    ∧ (¬ job.metadata.attempts + 1 < job.metadata.max_attempts →
      worker_process_job job (WorkerEvent.engineInitFailure msg) cancelled execOne
        = { resultWrite := some (dlqFailedResult job), retryPush := none,
            dlqPush := some (bumpAttempts job msg) }) := by
  refine ⟨?_, ?_, ?_⟩
  · intro ev hev
    fin_cases hev
    · obtain ⟨r, hr, hlen, hsts, hscore, hstat⟩ :=
        evaluate_compilation_error job ("Failed to pull image: " ++ msg)
      refine ⟨?_, ?_, r, ?_, hstat, hscore, hlen, hsts⟩ <;>
        simp [worker_process_job, execute_job_in_single_container, hr]
    · obtain ⟨r, hr, hlen, hsts, hscore, hstat⟩ :=
        evaluate_compilation_error job ("Container creation failed: " ++ msg)
      refine ⟨?_, ?_, r, ?_, hstat, hscore, hlen, hsts⟩ <;>
        simp [worker_process_job, execute_job_in_single_container, hr]
    · obtain ⟨r, hr, hlen, hsts, hscore, hstat⟩ :=
        evaluate_compilation_error job ("Container start failed: " ++ msg)
      refine ⟨?_, ?_, r, ?_, hstat, hscore, hlen, hsts⟩ <;>
        simp [worker_process_job, execute_job_in_single_container, hr]
  · intro h
    have hc : (bumpAttempts job msg).metadata.attempts
        < (bumpAttempts job msg).metadata.max_attempts := by
      simpa [bumpAttempts] using h
    simp [worker_process_job, hc]
  · intro h
    have hc : ¬ (bumpAttempts job msg).metadata.attempts
        < (bumpAttempts job msg).metadata.max_attempts := by
      simpa [bumpAttempts] using h
    simp [worker_process_job, hc]

/-- Witness for the amended C6: with attempts 0 and max_attempts 3, an engine
construction failure goes to the retry queue with attempts bumped to 1. -/
theorem c6_amended_witness :
    worker_process_job c6Job (WorkerEvent.engineInitFailure "daemon unreachable") c6Cancel c6Exec
      = { resultWrite := none,
          retryPush := some (bumpAttempts c6Job "daemon unreachable"),
          dlqPush := none } :=
  (c6_amended c6Job "daemon unreachable" c6Cancel c6Exec).2.1 (by decide)

/-! ## Claims about API admission -/

/-- Claim C7: a payload violating a validation rule is rejected with the
first violated rule's error code (language registry first, then the
validation chain) and, on every rejection path, nothing is enqueued; the
eight error codes are pairwise distinct.  The rejection code of the
validation chain is reported when the idempotency lookup does not
short-circuit the handler (no key supplied, no record stored, or a store
read error - all modelled as lookup = none). -/
theorem c7_validation_rejects_without_enqueue (enabled : Language → Bool)
    (serialize : SubmitPayload → String) (lookup : Option IdemRecord)
    (fresh_id : Nat) (p : SubmitPayload) (code : String)
    (hv : (if enabled p.language then validateSubmission p
           else some "LANGUAGE_NOT_SUPPORTED") = some code) :
    (submit_job enabled serialize lookup fresh_id p).enqueued = none
    ∧ (lookup = none →
        (submit_job enabled serialize lookup fresh_id p).response
          = SubmitOutcome.rejected code)
    ∧ List.Pairwise (fun a b => a ≠ b)
        ["NO_TEST_CASES", "TOO_MANY_TEST_CASES", "SOURCE_CODE_TOO_LARGE",
         "EMPTY_SOURCE_CODE", "TEST_CASE_INPUT_TOO_LARGE",
         "TEST_CASE_OUTPUT_TOO_LARGE", "INVALID_TIMEOUT",
         "LANGUAGE_NOT_SUPPORTED"] := by
  refine ⟨?_, ?_, by decide⟩
  · by_cases hl : enabled p.language
    · rw [if_pos hl] at hv
      cases lookup with
      | some stored =>
        by_cases hs : stored.payload = serialize p <;> simp [submit_job, hl, hs]
      | none => simp [submit_job, hl, hv]
    · simp [submit_job, hl]
  · intro hnone
    subst hnone
    by_cases hl : enabled p.language
    · rw [if_pos hl] at hv
      simp [submit_job, hl, hv]
    · rw [if_neg hl] at hv
      obtain rfl := Option.some.inj hv
      simp [submit_job, hl]

/-- A payload with no test cases (its only violation). -/
def c7Payload : SubmitPayload :=
  { language := Language.Python, source_code := "print(1)", test_cases := [],
    timeout_ms := 5000 }

/-- Witness for C7: the empty-test-list payload is rejected with
NO_TEST_CASES and nothing is enqueued. -/
theorem c7_validation_rejects_without_enqueue_witness :
    (submit_job (fun _ => true) (fun _ => "P") none 5 c7Payload).enqueued = none
    ∧ ((none : Option IdemRecord) = none →
        (submit_job (fun _ => true) (fun _ => "P") none 5 c7Payload).response
          = SubmitOutcome.rejected "NO_TEST_CASES")
    ∧ List.Pairwise (fun a b => a ≠ b)
        ["NO_TEST_CASES", "TOO_MANY_TEST_CASES", "SOURCE_CODE_TOO_LARGE",
         "EMPTY_SOURCE_CODE", "TEST_CASE_INPUT_TOO_LARGE",
         "TEST_CASE_OUTPUT_TOO_LARGE", "INVALID_TIMEOUT",
         "LANGUAGE_NOT_SUPPORTED"] :=
  c7_validation_rejects_without_enqueue (fun _ => true) (fun _ => "P") none 5
    c7Payload "NO_TEST_CASES" (by decide)

/-- Claim C8: with an Idempotency-Key supplied and a stored record present
(and the payload's language enabled, which the handler checks first), a
matching fingerprint replays the stored job_id with an accepted response and
no enqueue, and a differing fingerprint is rejected with
IDEMPOTENCY_CONFLICT, also without enqueue. -/
theorem c8_idempotency_replay_or_conflict (enabled : Language → Bool)
    (serialize : SubmitPayload → String) (stored : IdemRecord)
    (fresh_id : Nat) (p : SubmitPayload) (hl : enabled p.language = true) :
    (stored.payload = serialize p →
      submit_job enabled serialize (some stored) fresh_id p
        = { response := SubmitOutcome.acceptedExisting stored.job_id, enqueued := none })
    ∧ (stored.payload ≠ serialize p →
      submit_job enabled serialize (some stored) fresh_id p
        = { response := SubmitOutcome.rejected "IDEMPOTENCY_CONFLICT",
            enqueued := none }) := by
  constructor
  · intro h
    simp [submit_job, hl, h]
  · intro h
    simp [submit_job, hl, h]

/-- Witness for C8: a stored record whose fingerprint matches the
serialization of the replayed payload returns the stored job id 42. -/
theorem c8_idempotency_replay_or_conflict_witness :
    submit_job (fun _ => true) (fun _ => "P") (some { job_id := 42, payload := "P" }) 5 c7Payload
      = { response := SubmitOutcome.acceptedExisting 42, enqueued := none } :=
  (c8_idempotency_replay_or_conflict (fun _ => true) (fun _ => "P")
    { job_id := 42, payload := "P" } 5 c7Payload rfl).1 rfl

end Optimus
